import Mathlib

/-!
Verification development for the EGP topology validator
(`src/topology/validation_functions.py` and the helpers it uses from
`src/helpers.py`).

Modelling conventions (shallow embedding):

* A coordinate (`Pt`) is a pair of rationals: after standardization every
  geometry is 2-dimensional with coordinates rounded to 7 decimal places, so
  exact rationals model the post-rounding values faithfully.
* An arc's geometry is its ordered vertex list (`List Pt`), mirroring the
  `pts_tuple` attribute the validator precomputes from every LineString.
* Predicates computed by the external `shapely`/`geopandas` libraries
  (`length`, `equals`, `crosses`, `overlaps`, buffer intersection,
  `is_simple`, `geom_type`, `split`) are not code of this repository; they
  are modelled as an oracle record (`Geo`) supplied to every check, and
  counterexamples instantiate the oracle with values matching the library's
  documented semantics on the concrete inputs involved.
* Python sets of identifiers are modelled as lists read up to membership;
  `uniqueFirst` mirrors first-occurrence deduplication (`pandas.unique`).
-/

/-- A 2-dimensional coordinate after standardization. -/
abbrev Pt : Type := ℚ × ℚ

/-- Strict lexicographic comparison of coordinates, as Python compares
coordinate tuples. -/
def ptLtB (a b : Pt) : Bool :=
  decide (a.1 < b.1) || (decide (a.1 = b.1) && decide (a.2 < b.2))

/-- Non-strict lexicographic comparison of coordinates. -/
def ptLeB (a b : Pt) : Bool :=
  ptLtB a b || decide (a = b)

/-- Non-strict lexicographic comparison of coordinate pairs, as Python's
`sorted` compares 2-tuples of coordinate tuples. -/
def pairLeB (p q : Pt × Pt) : Bool :=
  ptLtB p.1 q.1 || (decide (p.1 = q.1) && ptLeB p.2 q.2)

/-- The consecutive-vertex pairs of a vertex tuple: the `zip(coords_1,
coords_2)` of `ordered_pairs`, where `coords_2` is the sequence shifted by
one. -/
def consecutivePairs (coords : List Pt) : List (Pt × Pt) :=
  coords.zip coords.tail

/-- `ordered_pairs` (module-level function of
`src/topology/validation_functions.py`): the sorted list of adjacent
coordinate pairs. -/
def ordered_pairs (coords : List Pt) : List (Pt × Pt) :=
  (consecutivePairs coords).mergeSort pairLeB

/-- Rounding a rational to `p` decimal places, the value-level model of the
per-literal rewrite `f"{float(m.group(0)):.{precision}f}"` performed by
`helpers.round_coordinates` on the WKT text of a geometry. -/
def roundTo (p : ℕ) (q : ℚ) : ℚ :=
  ((round (q * (10 : ℚ) ^ p) : ℤ) : ℚ) / (10 : ℚ) ^ p

/-- `helpers.round_coordinates`, applied to a geometry collection modelled as
a list of geometries, each a list of coordinate values (the WKT numbers in
order; dimensions beyond the first two have already been dropped by
`helpers.flatten_coordinates` during standardization). -/
def round_coordinates (p : ℕ) (g : List (List ℚ)) : List (List ℚ) :=
  g.map (fun geom => geom.map (roundTo p))

/-! Identifier resolution (`Validator.__init__`): identifiers must be unique
32-digit hexadecimal strings; invalid or duplicated ones are overwritten with
freshly generated values (`uuid.uuid4().hex`). -/

/-- The characters of Python's `string.hexdigits`. -/
def hexdigits : List Char := "0123456789abcdefABCDEF".data

/-- A valid identifier: exactly 32 characters, all hexadecimal digits.
Mirrors `len(val) == 32` and `set(val).issubset(hexdigits)`. -/
def isHex32 (s : String) : Bool :=
  decide (s.length = 32) && s.data.all (fun c => hexdigits.contains c)

/-- `flag_invalid` for one identifier value: not a 32-digit hex string, or a
non-null duplicate within the whole column (`duplicated(keep=False)` marks a
value occurring at least twice). -/
def invalidId (all : List String) (x : String) : Bool :=
  !isHex32 x || (decide (2 ≤ all.count x) && decide (x ≠ "None"))

/-- Sequential overwrite of flagged identifiers with fresh values: position
`k` counts the flagged records already consumed, so the `k`-th flagged record
receives `fresh k` (mirroring the list comprehension
`[uuid.uuid4().hex for _ in range(sum(flag_invalid))]`). -/
def resolveIdsAux (fresh : ℕ → String) (all : List String) :
    List String → ℕ → List String
  | [], _ => []
  | x :: xs, k =>
    if invalidId all x then fresh k :: resolveIdsAux fresh all xs (k + 1)
    else x :: resolveIdsAux fresh all xs k

/-- The identifier-resolution step of `Validator.__init__`. -/
def resolveIdentifiers (fresh : ℕ → String) (ids : List String) : List String :=
  resolveIdsAux fresh ids ids 0

/-- The number of invalid identifiers, `sum(flag_invalid)`. -/
def numInvalid (ids : List String) : ℕ :=
  ids.countP (invalidId ids)

/-! The Validator data model. -/

/-- A standardized road arc as held in `self.segment` after
`Validator.__init__`: indexed by `segment_id`, keeping only
`structure_type` and the geometry (from which `pts_tuple`, `pt_start`,
`pt_end` and `pts_ordered_pairs` are derived). -/
structure Seg where
  sid : String
  structure_type : String
  geom : List Pt
deriving DecidableEq

/-- A record of the retained original collection `self.segment_original`
(unsubsetted, unstandardized): it still carries `segment_type`. -/
structure OrigSeg where
  sid : String
  segment_type : ℤ
  structure_type : String
  geom : List Pt
deriving DecidableEq

/-- The Validator's mutable state: the standardized arc collection, the
retained original collection, and the two precomputed lookups
(`pts_id_lookup`, `idx_id_lookup`). -/
structure VState where
  segment : List Seg
  segmentOriginal : List OrigSeg
  ptsIdLookup : Pt → List String
  idxIdLookup : ℕ → String

/-- The result shape returned by every check: `errors["values"]` and the
identifiers carried by the optional selection query
`errors["query"] = f"segment_id in (...)"` (modelled by the identifier list
the query string enumerates). -/
structure CheckResult where
  values : List String
  queryIds : Option (List String)
deriving DecidableEq

/-- Oracle record for the geometric primitives supplied by the external
`shapely`/`geopandas` libraries (not code of this repository): arc length,
exact topological equality, `crosses`/`overlaps` predicates, intersection of
an arc with the 5-unit node buffer `Point(pt).buffer(5, resolution=5)`,
simplicity, `geom_type`, and the line-split operation
`MultiLineString(split(line1, line2))` acting on a multi-part geometry. -/
structure Geo where
  lengthOf : List Pt → ℚ
  equalsG : List Pt → List Pt → Bool
  crosses : List Pt → List Pt → Bool
  overlaps : List Pt → List Pt → Bool
  bufferIntersects : Pt → List Pt → Bool
  isSimple : List Pt → Bool
  geomTypeOf : List Pt → String
  splitLine : List (List Pt) → List Pt → List (List Pt)

/-- `pt_start`: the first vertex of an arc. -/
def ptStart (sg : Seg) : Pt := sg.geom.headD (0, 0)

/-- `pt_end`: the last vertex of an arc. -/
def ptEnd (sg : Seg) : Pt := sg.geom.getLastD (0, 0)

/-- First-occurrence deduplication, as `pandas.Series.unique` and Python
`set` materialization: keeps one copy of each element. -/
def uniqueFirst {α : Type} [DecidableEq α] : List α → List α
  | [] => []
  | x :: xs => x :: (uniqueFirst xs).filter (fun y => y ≠ x)

/-- `pts_id_lookup`: maps a vertex coordinate to the set of identifiers of
arcs having that exact coordinate as any vertex (built by exploding
`pts_tuple` and grouping identifiers by coordinate). -/
def buildPtsIdLookup (segs : List Seg) : Pt → List String :=
  fun pt => (segs.filter (fun sg => decide (pt ∈ sg.geom))).map (·.sid)

/-- `idx_id_lookup`: maps the positional index used by the spatial index back
to the arc identifier (`dict(zip(range(len(self.segment)),
self.segment.index))`). -/
def buildIdxIdLookup (segs : List Seg) : ℕ → String :=
  fun i => ((segs.get? i).map (·.sid)).getD ""

/-- A freshly initialized Validator state: lookups built from the
standardized arcs, originals retained separately. -/
def mkVState (segs : List Seg) (orig : List OrigSeg) : VState :=
  ⟨segs, orig, buildPtsIdLookup segs, buildIdxIdLookup segs⟩

/-- A spatial-index predicate query `self.segment.sindex.query(g, predicate)`
over the standardized arcs: the positional indices (counting from `k`) of the
arcs satisfying the predicate. The spatial index filters by bounding box and
then applies the exact predicate, so its result set is exactly this. -/
def sindexQueryP (p : List Pt → Bool) : List Seg → ℕ → List ℕ
  | [], _ => []
  | sg :: rest, k =>
    if p sg.geom then k :: sindexQueryP p rest (k + 1)
    else sindexQueryP p rest (k + 1)

/-- Packaging of non-empty error values into a result, as each check does:
`errors["values"] = vals` and `errors["query"] = f"segment_id in (...)"`
only when `vals` is non-empty, else the initial empty result. -/
def mkResult (vals : List String) : CheckResult :=
  if vals.isEmpty then ⟨[], none⟩ else ⟨vals, some vals⟩

/-! The nine validation checks. -/

/-- Validation 101, `Validator.construction_singlepart`: flags arcs whose
geometry type is not exactly `"LineString"`. -/
def construction_singlepart (G : Geo) (s : VState) : CheckResult :=
  mkResult (uniqueFirst
    ((s.segment.filter (fun sg => G.geomTypeOf sg.geom != "LineString")).map (·.sid)))

/-- The structure subset: arcs whose `structure_type` is not in
`{"Unknown", "None"}`. -/
def structuresOf (segs : List Seg) : List Seg :=
  segs.filter (fun sg =>
    sg.structure_type != "Unknown" && sg.structure_type != "None")

/-- All structure nodes, with multiplicity: the concatenation of the
structure arcs' start points and end points
(`structures["pt_start"].append(structures["pt_end"])`). -/
def structureNodes (segs : List Seg) : List Pt :=
  (structuresOf segs).map ptStart ++ (structuresOf segs).map ptEnd

/-- Identifiers of isolated structures: structure arcs neither of whose
endpoints is a duplicated structure node (a node occurring at least twice in
`structureNodes`). -/
def isolatedStructureIds (segs : List Seg) : List String :=
  ((structuresOf segs).filter (fun sg =>
      !(decide (2 ≤ (structureNodes segs).count (ptStart sg)) ||
        decide (2 ≤ (structureNodes segs).count (ptEnd sg))))).map (·.sid)

/-- Validation 102, `Validator.construction_min_length`: flags arcs shorter
than 3 meters, excluding isolated structures. -/
def construction_min_length (G : Geo) (s : VState) : CheckResult :=
  let flag : Seg → Bool := fun sg => decide (G.lengthOf sg.geom < 3)
  if (s.segment.filter flag).isEmpty then ⟨[], none⟩
  else
    let iso := isolatedStructureIds s.segment
    mkResult (uniqueFirst
      ((s.segment.filter (fun sg => flag sg && !(iso.contains sg.sid))).map (·.sid)))

/-- Validation 103, `Validator.construction_simple`: flags non-simple
geometries. -/
def construction_simple (G : Geo) (s : VState) : CheckResult :=
  mkResult (uniqueFirst
    ((s.segment.filter (fun sg => !G.isSimple sg.geom)).map (·.sid)))

/-- Squared Euclidean distance between two coordinates;
`scipy.spatial.distance.euclidean(*pair) < 0.01` is equivalent to the squared
distance being below `0.0001`. -/
def distSq (a b : Pt) : ℚ :=
  (a.1 - b.1) * (a.1 - b.1) + (a.2 - b.2) * (a.2 - b.2)

/-- Validation 104, `Validator.construction_cluster_tolerance`: among arcs
with more than 2 vertices, flags arcs having an adjacent-vertex pair less
than 0.01 meters apart. -/
def construction_cluster_tolerance (s : VState) : CheckResult :=
  let seg2 := s.segment.filter (fun sg => decide (2 < sg.geom.length))
  mkResult (uniqueFirst
    ((seg2.filter (fun sg =>
        (ordered_pairs sg.geom).any (fun pr =>
          decide (distSq pr.1 pr.2 < 1 / 10000)))).map (·.sid)))

/-- Equality of unordered endpoint pairs, as the code's
`set((pt_start, pt_end))` keys compare equal. -/
def samePairB (a b : Seg) : Bool :=
  (decide (ptStart a = ptStart b) && decide (ptEnd a = ptEnd b)) ||
  (decide (ptStart a = ptEnd b) && decide (ptEnd a = ptStart b))

/-- First filter of validation 201: arcs whose length is duplicated within
the whole collection (`self.segment.length.duplicated(keep=False)`). -/
def dupLenFiltrate (G : Geo) (segs : List Seg) : List Seg :=
  segs.filter (fun a =>
    decide (2 ≤ segs.countP (fun b =>
      decide (G.lengthOf b.geom = G.lengthOf a.geom))))

/-- Second filter of validation 201: arcs of the first filtrate whose
unordered endpoint pair is duplicated within the first filtrate. -/
def dupPairFiltrate (G : Geo) (segs : List Seg) : List Seg :=
  (dupLenFiltrate G segs).filter (fun a =>
    decide (2 ≤ (dupLenFiltrate G segs).countP (fun b => samePairB b a)))

/-- Third filter of validation 201: arcs of the second filtrate equal (per
the geometric-equality oracle) to more than one arc of the second filtrate,
i.e. to at least one other arc (`.sum() > 1`, each arc equalling itself). -/
def dupGeomFiltrate (G : Geo) (segs : List Seg) : List Seg :=
  (dupPairFiltrate G segs).filter (fun a =>
    decide (2 ≤ (dupPairFiltrate G segs).countP
      (fun b => G.equalsG a.geom b.geom)))

/-- Validation 201, `Validator.duplication_duplicated`: three sequential
filters — duplicated length over the whole collection, duplicated unordered
endpoint pair within the first filtrate, and at least one other geometrically
equal arc within the second filtrate. -/
def duplication_duplicated (G : Geo) (s : VState) : CheckResult :=
  mkResult (uniqueFirst ((dupGeomFiltrate G s.segment).map (·.sid)))

/-- Validation 202, `Validator.duplication_overlap`: flags arcs overlapped by
at least one other arc, per the spatial-index `overlaps` predicate. -/
def duplication_overlap (G : Geo) (s : VState) : CheckResult :=
  mkResult (uniqueFirst
    ((s.segment.filter (fun sg =>
        !(sindexQueryP (fun h => G.overlaps sg.geom h) s.segment 0).isEmpty)).map
      (·.sid)))

/-- All arc nodes (`pt_start` column followed by `pt_end` column). -/
def nodesOf (segs : List Seg) : List Pt :=
  segs.map ptStart ++ segs.map ptEnd

/-- The interior (non-node, by position) vertices of one arc:
`pts_tuple[1:-1]`. -/
def interiorOf (sg : Seg) : List Pt := (sg.geom.drop 1).dropLast

/-- Interior vertices over arcs with more than 2 vertices (`non_nodes`). -/
def nonNodeVertices (segs : List Seg) : List Pt :=
  (segs.filter (fun sg => decide (2 < sg.geom.length))).flatMap interiorOf

/-- `invalid_pts`: coordinates that are simultaneously a node of some arc and
an interior vertex of some arc with more than 2 vertices. -/
def invalidPts301 (segs : List Seg) : List Pt :=
  (nodesOf segs).filter (fun pt => (nonNodeVertices segs).contains pt)

/-- Validation 301, `Validator.connectivity_node_intersection`: flags arcs
having an interior vertex at an invalid coordinate. -/
def connectivity_node_intersection (s : VState) : CheckResult :=
  let invalid := invalidPts301 s.segment
  if invalid.isEmpty then ⟨[], none⟩
  else
    let invalidIds := invalid.flatMap s.ptsIdLookup
    let segsF := s.segment.filter (fun sg => invalidIds.contains sg.sid)
    mkResult (uniqueFirst
      ((segsF.filter (fun sg =>
          !((interiorOf sg).filter (fun pt => invalid.contains pt)).isEmpty)).map
        (·.sid)))

/-- One violating node row of validation 302: the node, the identifiers of
arcs containing the node as a vertex (`node_ids`), and the identifiers of
buffer-intersecting arcs not containing it (`disconnected_ids`). -/
structure MDRow where
  pt : Pt
  nodeIds : List String
  disconnectedIds : List String
deriving DecidableEq

/-- The violating node rows of `Validator.connectivity_min_distance`: every
node (unique over `pt_start` then `pt_end`) is buffered; nodes whose buffer
intersects more than one arc are kept; the node's own arcs are subtracted
from the intersecting set; rows with a non-empty disconnected remainder are
the violations. -/
def minDistRows (G : Geo) (s : VState) : List MDRow :=
  let nodes := uniqueFirst (nodesOf s.segment)
  let rows1 := nodes.map (fun pt =>
    (pt, sindexQueryP (fun h => G.bufferIntersects pt h) s.segment 0))
  let rows2 := rows1.filter (fun r => decide (1 < r.2.length))
  let rows3 := rows2.map (fun r =>
    let intersectIds := uniqueFirst (r.2.map s.idxIdLookup)
    let nodeIds := s.ptsIdLookup r.1
    { pt := r.1, nodeIds := nodeIds,
      disconnectedIds := intersectIds.filter (fun i => !nodeIds.contains i) })
  rows3.filter (fun r => !r.disconnectedIds.isEmpty)

/-- The error message compiled for one violating node row of validation
302. -/
def renderMsg302 (r : MDRow) : String :=
  "Disconnected feature(s) are too close: " ++
    String.intercalate ", " r.disconnectedIds ++ " - " ++
    String.intercalate ", " r.nodeIds

/-- Validation 302, `Validator.connectivity_min_distance`: compiles one
message per violating node; the query enumerates the node arcs of all rows
followed by the disconnected arcs of all rows, deduplicated. -/
def connectivity_min_distance (G : Geo) (s : VState) : CheckResult :=
  let rows := minDistRows G s
  if rows.isEmpty then ⟨[], none⟩
  else
    ⟨rows.map renderMsg302,
     some (uniqueFirst (rows.flatMap (·.nodeIds) ++ rows.flatMap (·.disconnectedIds)))⟩

/-! Validation 303 and rule orchestration. -/

/-- Per-arc crossing flags over the standardized arcs: arc `i` is flagged
when the spatial index reports at least one arc crossing it
(`crosses.map(len) > 0`). -/
def seg303Flags (G : Geo) (segs : List Seg) : List Bool :=
  segs.map (fun sg =>
    !(sindexQueryP (fun h => G.crosses sg.geom h) segs 0).isEmpty)

/-- The split applied to one original record by validation 303, in the
aligned case (every original record road-type and single-part, so original
row `i` corresponds to standardized row `i`; the source's index realignment
for mixed records is marked `# TODO: fix.` and fails for non-road records):
if standardized arc `i` has crossing arcs, the original geometry is split by
iteratively applying the line-split operation with each crossing partner's
original geometry (`reduce(split_line, (row.geometry, *splitters))`),
yielding the multi-part result's parts; otherwise `none` (no split). -/
def seg303SplitRow (G : Geo) (segs : List Seg) (orig : List OrigSeg) (i : ℕ)
    (r : OrigSeg) : Option (List (List Pt)) :=
  match segs.get? i with
  | some sg =>
    let cross := sindexQueryP (fun h => G.crosses sg.geom h) segs 0
    if cross.isEmpty then none
    else some
      ((cross.filterMap (fun j => (orig.get? j).map (·.geom))).foldl
        G.splitLine [r.geom])
  | none => none

/-- The rewritten original collection after validation 303's repair:
unsplit (single-part) records first, then the exploded parts of the split
(multi-part) records, as `helpers.explode_geometry` orders them; finally all
coordinates re-rounded to 7 decimal places by `helpers.round_coordinates`. -/
def seg303Repair (G : Geo) (segs : List Seg) (orig : List OrigSeg) :
    List OrigSeg :=
  let rows := orig.enum.map (fun p => (p.2, seg303SplitRow G segs orig p.1 p.2))
  let singles := rows.filterMap (fun p => if p.2.isNone then some p.1 else none)
  let multis := rows.flatMap (fun p =>
    match p.2 with
    | some parts => parts.map (fun g => { p.1 with geom := g })
    | none => [])
  (singles ++ multis).map (fun r =>
    { r with geom := r.geom.map (fun pt => (roundTo 7 pt.1, roundTo 7 pt.2)) })

/-- Validation 303, `Validator.connectivity_segmentation`: detects crossing
arcs, rewrites and re-exports the original collection as a side effect when
any crossing exists, and returns the error record — which the source
initializes empty and never populates. -/
def connectivity_segmentation (G : Geo) (s : VState) : CheckResult × VState :=
  if (seg303Flags G s.segment).any id then
    (⟨[], none⟩, { s with segmentOriginal := seg303Repair G s.segment s.segmentOriginal })
  else (⟨[], none⟩, s)

/-- The ordered validation registry `self.validations` of
`Validator.__init__`: code, description, and check function (checks other
than 303 read the state and leave it unchanged; 303 may also rewrite the
original collection). -/
def validations (G : Geo) :
    List (ℕ × String × (VState → CheckResult × VState)) :=
  [ (101, "Arcs must be single part (i.e. LineString).",
      fun s => (construction_singlepart G s, s)),
    (102, "Arcs must be >= 3 meters in length.",
      fun s => (construction_min_length G s, s)),
    (103, "Arcs must be simple (i.e. must not self-overlap, self-cross, nor touch their interior).",
      fun s => (construction_simple G s, s)),
    (104, "Arcs must have >= 0.01 meters distance between adjacent vertices (cluster tolerance).",
      fun s => (construction_cluster_tolerance s, s)),
    (201, "Arcs must not be duplicated.",
      fun s => (duplication_duplicated G s, s)),
    (202, "Arcs must not overlap (i.e. contain duplicated adjacent vertices).",
      fun s => (duplication_overlap G s, s)),
    (301, "Arcs must only connect at endpoints (nodes).",
      fun s => (connectivity_node_intersection s, s)),
    (302, "Arcs must be >= 5 meters from each other, excluding connected arcs (i.e. no dangles).",
      fun s => (connectivity_min_distance G s, s)),
    (303, "Arcs must not cross (i.e. must be segmented at each intersection).",
      fun s => connectivity_segmentation G s) ]

/-- Dispatch of one validation by code, as `execute` looks the check up in
the registry. -/
def runValidation (G : Geo) (code : ℕ) (s : VState) : CheckResult × VState :=
  match (validations G).find? (fun e => e.1 == code) with
  | some e => e.2.2 s
  | none => (⟨[], none⟩, s)

/-- `Validator.execute` in the exception-free case: iterates the validations
in declared order, threading the state, and stores a result under its code
and description only when its `values` are non-empty. -/
def executeReport (G : Geo) (s : VState) :
    List (ℕ × String × CheckResult) × VState :=
  (validations G).foldl
    (fun acc e =>
      let r := e.2.2 acc.2
      (if r.1.values.isEmpty then acc.1 else acc.1 ++ [(e.1, e.2.1, r.1)], r.2))
    ([], s)

/-! Failure semantics of `Validator.execute`: the Python checks may raise;
the `try` block catches `(KeyError, SyntaxError, ValueError)` and terminates
the process via `sys.exit(1)`; any other exception propagates out of
`execute` and likewise aborts the interpreter. Either way the caller never
reads the partially accumulated errors. -/

/-- The exception kinds distinguished by `execute`'s handler. -/
inductive PyExc
  | keyError
  | typeError
  | valueError
  | syntaxError
deriving DecidableEq

/-- The exception classes named in `except (KeyError, SyntaxError,
ValueError)`. -/
def caughtExc : List PyExc := [.keyError, .syntaxError, .valueError]

/-- Outcome of a validation run: a delivered report, a fatal `sys.exit(1)`,
or an uncaught exception terminating the interpreter. -/
inductive RunOutcome
  | report (entries : List (ℕ × CheckResult))
  | fatalExit
  | uncaught (e : PyExc)
deriving DecidableEq

/-- The iteration of `Validator.execute` over rule outcomes (each rule either
returns a result or raises), accumulating the non-empty results in declared
order. -/
def executeRun :
    List (ℕ × Except PyExc CheckResult) → List (ℕ × CheckResult) → RunOutcome
  | [], acc => .report acc
  | (_, .error e) :: _, _ =>
    if caughtExc.contains e then .fatalExit else .uncaught e
  | (c, .ok r) :: rest, acc =>
    executeRun rest (if r.values.isEmpty then acc else acc ++ [(c, r)])

/-- `Validator.execute` over a list of rule outcomes. -/
def executeValidations (rules : List (ℕ × Except PyExc CheckResult)) :
    RunOutcome :=
  executeRun rules []

/-- The report entry contributed by one successfully executed rule: present
exactly when its `values` are non-empty. -/
def okEntry (p : ℕ × Except PyExc CheckResult) : Option (ℕ × CheckResult) :=
  match p.2 with
  | Except.ok r => if r.values.isEmpty then none else some (p.1, r)
  | Except.error _ => none

/-- The full report of an exception-free run: the non-empty results in
declared order. -/
def fullReport (rules : List (ℕ × Except PyExc CheckResult)) :
    List (ℕ × CheckResult) :=
  rules.filterMap okEntry

/-! Concrete fixtures used to settle the claims. Oracle instantiations are
chosen to agree with the shapely semantics on the concrete geometries
involved (noted per field). -/

/-- Diagonal arc from (0,0) to (20,20). -/
def gA1 : List Pt := [(0, 0), (20, 20)]

/-- Diagonal arc from (0,20) to (20,0); properly crosses `gA1` at
(10,10). -/
def gB1 : List Pt := [(0, 20), (20, 0)]

/-- Two crossing road arcs. -/
def segs1 : List Seg := [⟨"A", "None", gA1⟩, ⟨"B", "None", gB1⟩]

/-- The matching original records (all road-type, aligned). -/
def orig1 : List OrigSeg :=
  [⟨"A", 1, "None", gA1⟩, ⟨"B", 1, "None", gB1⟩]

/-- Oracle for the crossing-pair fixture. `lengthOf`: both diagonals have
the same length (20·sqrt 2, approximated by a rational; only its comparison
against 3 and equality between the two arcs matter). `crosses`: the two
diagonals properly cross, nothing else does. `bufferIntersects`: each
endpoint's 5-unit buffer reaches only its own arc (every other arc stays at
distance 10 sqrt 2 or more). `splitLine`: splitting either diagonal by the
other cuts it at (10,10). -/
def exG1 : Geo where
  lengthOf := fun _ => 28
  equalsG := fun g h => decide (g = h)
  crosses := fun g h => decide ((g = gA1 ∧ h = gB1) ∨ (g = gB1 ∧ h = gA1))
  overlaps := fun _ _ => false
  bufferIntersects := fun pt g => decide (pt ∈ g)
  isSimple := fun _ => true
  geomTypeOf := fun _ => "LineString"
  splitLine := fun parts sp =>
    parts.flatMap (fun g =>
      if g = gA1 ∧ sp = gB1 then [[(0, 0), (10, 10)], [(10, 10), (20, 20)]]
      else if g = gB1 ∧ sp = gA1 then [[(0, 20), (10, 10)], [(10, 10), (20, 0)]]
      else [g])

/-- Freshly initialized Validator state over the crossing pair. -/
def exS1 : VState := mkVState segs1 orig1

/-- Arc from (0,0) to (10,0). -/
def gA2 : List Pt := [(0, 0), (10, 0)]

/-- Arc from (10,0) to (20,0): shares endpoint (10,0) with `gA2`. -/
def gB2 : List Pt := [(10, 0), (20, 0)]

/-- Short arc from (10,2) to (10,3): disconnected, within 2 units of the
shared node (10,0). -/
def gC2 : List Pt := [(10, 2), (10, 3)]

/-- Two connected arcs plus a nearby disconnected arc. -/
def segs2 : List Seg :=
  [⟨"A", "None", gA2⟩, ⟨"B", "None", gB2⟩, ⟨"C", "None", gC2⟩]

/-- The node/arc pairs of the min-distance fixture whose 5-unit node buffer
intersects the arc, tabulated from the true Euclidean distances: the nodes
of the fixture are (0,0), (10,0), (10,2), (20,0) and (10,3); each arc at
distance 0 from a node (containing it) intersects its buffer, arc `gC2` is
at distance 2 from (10,0), arcs `gA2`/`gB2` are at distance 2 from (10,2)
and 3 from (10,3) (closest point (10,0)), and every remaining pair is at
distance 10 or more, beyond the 5-unit buffer. -/
def exBufTrue : List (Pt × List Pt) :=
  [((0, 0), gA2),
   ((10, 0), gA2), ((10, 0), gB2), ((10, 0), gC2),
   ((10, 2), gA2), ((10, 2), gB2), ((10, 2), gC2),
   ((20, 0), gB2),
   ((10, 3), gA2), ((10, 3), gB2), ((10, 3), gC2)]

/-- Oracle for the min-distance fixture; `bufferIntersects` is the
tabulation `exBufTrue` of the true buffer/arc intersections. -/
def exG2 : Geo where
  lengthOf := fun g => if g = gC2 then 1 else 10
  equalsG := fun g h => decide (g = h)
  crosses := fun _ _ => false
  overlaps := fun _ _ => false
  bufferIntersects := fun pt g => exBufTrue.contains (pt, g)
  isSimple := fun _ => true
  geomTypeOf := fun _ => "LineString"
  splitLine := fun parts _ => parts

/-- Freshly initialized Validator state for the min-distance fixture. -/
def exS2 : VState := mkVState segs2 []

/-- A single arc revisiting the coordinate (1,0): its end node coincides
with one of its own interior vertices, and no second arc exists. -/
def gA3 : List Pt := [(0, 0), (1, 0), (2, 0), (1, 0)]

/-- The single-arc node-intersection fixture. -/
def segs3 : List Seg := [⟨"A", "None", gA3⟩]

/-- Freshly initialized Validator state for the node-intersection
fixture. -/
def exS3 : VState := mkVState segs3 []

/-- A loop structure arc: both endpoints at (0,0), total length 2. -/
def gA4 : List Pt := [(0, 0), (1, 0), (0, 0)]

/-- A single short Bridge loop; no other structure arc exists. -/
def segs4 : List Seg := [⟨"A", "Bridge", gA4⟩]

/-- Oracle for the min-length fixture: the loop's length is 2 (two unit
segments). -/
def exG4 : Geo where
  lengthOf := fun _ => 2
  equalsG := fun g h => decide (g = h)
  crosses := fun _ _ => false
  overlaps := fun _ _ => false
  bufferIntersects := fun _ _ => false
  isSimple := fun _ => true
  geomTypeOf := fun _ => "LineString"
  splitLine := fun parts _ => parts

/-- Freshly initialized Validator state for the min-length fixture. -/
def exS4 : VState := mkVState segs4 []

/-- Straight arc from (0,0) to (10,0); curve length 10. -/
def gA5 : List Pt := [(0, 0), (10, 0)]

/-- Backtracking arc (0,0) → (10,0) → (5,0): its point set is exactly the
segment from (0,0) to (10,0), but its curve length is 15 and its endpoints
are (0,0) and (5,0). -/
def gB5 : List Pt := [(0, 0), (10, 0), (5, 0)]

/-- A geometric duplicate pair whose encodings differ. -/
def segs5 : List Seg := [⟨"A", "None", gA5⟩, ⟨"B", "None", gB5⟩]

/-- Oracle for the duplication fixture. `lengthOf`: shapely's `length` is
the curve length, 10 for `gA5` and 15 for `gB5`. `equalsG`: shapely's
`equals` is point-set equality, so `gA5` and `gB5` (and each with itself)
compare equal. -/
def exG5 : Geo where
  lengthOf := fun g => if g = gB5 then 15 else 10
  equalsG := fun g h =>
    decide ((g = gA5 ∨ g = gB5) ∧ (h = gA5 ∨ h = gB5))
  crosses := fun _ _ => false
  overlaps := fun _ _ => false
  bufferIntersects := fun _ _ => false
  isSimple := fun _ => true
  geomTypeOf := fun _ => "LineString"
  splitLine := fun parts _ => parts

/-- Freshly initialized Validator state for the duplication
counterexample. -/
def exS5 : VState := mkVState segs5 []

/-- Vertex-identical duplicate pair used for the duplication witness. -/
def gW5 : List Pt := [(0, 0), (7, 0)]

/-- Two arcs with exactly the same encoded geometry. -/
def segsW5 : List Seg := [⟨"A", "None", gW5⟩, ⟨"B", "None", gW5⟩]

/-- Oracle for the duplication witness: geometric equality instantiated by
exact encoding equality (sound for shapely: identical encodings are
topologically equal), lengths all 7. -/
def exGW5 : Geo where
  lengthOf := fun _ => 7
  equalsG := fun g h => decide (g = h)
  crosses := fun _ _ => false
  overlaps := fun _ _ => false
  bufferIntersects := fun _ _ => false
  isSimple := fun _ => true
  geomTypeOf := fun _ => "LineString"
  splitLine := fun parts _ => parts

/-- Freshly initialized Validator state for the duplication witness. -/
def exSW5 : VState := mkVState segsW5 []

/-- A constant fresh-identifier source used by the identifier-repair
witness (only index 0 is consumed there). -/
def exFresh : ℕ → String := fun _ => "0123456789abcdef0123456789abcdef"

/-! Generic list helper lemmas. -/

theorem mem_uniqueFirst {α : Type} [DecidableEq α] {a : α} :
    ∀ {l : List α}, a ∈ uniqueFirst l ↔ a ∈ l := by
  intro l
  induction l with
  | nil => simp [uniqueFirst]
  | cons x xs ih =>
    simp only [uniqueFirst, List.mem_cons, List.mem_filter]
    by_cases hax : a = x
    · simp [hax]
    · simp [hax, ih]

theorem two_le_countP_of_mem {α : Type} [DecidableEq α] {p : α → Bool}
    {l : List α} {a b : α} (ha : a ∈ l) (hb : b ∈ l) (hne : a ≠ b)
    (hpa : p a = true) (hpb : p b = true) : 2 ≤ l.countP p := by
  have hperm := List.perm_cons_erase ha
  have hb' : b ∈ l.erase a := (List.mem_erase_of_ne (Ne.symm hne)).mpr hb
  have h1 : 0 < (l.erase a).countP p :=
    List.countP_pos_iff.mpr ⟨b, hb', hpb⟩
  have h2 : l.countP p = (l.erase a).countP p + 1 := by
    rw [hperm.countP_eq p, List.countP_cons, hpa]
    simp
  omega

theorem exists_ne_of_two_le_countP {α : Type} [DecidableEq α] {p : α → Bool}
    {l : List α} (hl : l.Nodup) (a : α) (h2 : 2 ≤ l.countP p) :
    ∃ b ∈ l, b ≠ a ∧ p b = true := by
  by_contra hcon
  push_neg at hcon
  have hle : l.countP p ≤ l.countP (fun x => decide (x = a)) := by
    apply List.countP_mono_left
    intro x hx hpx
    by_cases hxa : x = a
    · simp [hxa]
    · exact absurd hpx (by simpa using hcon x hx hxa)
  have hcount : l.countP (fun x => decide (x = a)) = l.count a := rfl
  have h1 : l.count a ≤ 1 := List.nodup_iff_count_le_one.mp hl a
  omega

theorem countP_le_one_of_nodup {α : Type} {p : α → Bool} {l : List α}
    (hl : l.Nodup) (hone : ∀ x ∈ l, ∀ y ∈ l, p x = true → p y = true → x = y) :
    l.countP p ≤ 1 := by
  induction l with
  | nil => simp
  | cons x xs ih =>
    rw [List.countP_cons]
    rcases List.nodup_cons.mp hl with ⟨hx, hxs⟩
    by_cases hpx : p x = true
    · have hzero : xs.countP p = 0 := by
        rw [List.countP_eq_zero]
        intro y hy hpy
        have hxy : x = y :=
          hone x (List.mem_cons_self x xs) y (List.mem_cons_of_mem _ hy) hpx hpy
        exact hx (by rw [hxy]; exact hy)
      rw [hzero, if_pos hpx]
    · have hrec : xs.countP p ≤ 1 :=
        ih hxs (fun u hu v hv =>
          hone u (List.mem_cons_of_mem _ hu) v (List.mem_cons_of_mem _ hv))
      rw [if_neg hpx]
      omega

/-- Membership characterization for the positional spatial-index query. -/
theorem mem_sindexQueryP {p : List Pt → Bool} :
    ∀ {segs : List Seg} {k i : ℕ},
      i ∈ sindexQueryP p segs k ↔
        ∃ j, ∃ h : j < segs.length, p segs[j].geom = true ∧ i = k + j := by
  intro segs
  induction segs with
  | nil => intro k i; simp [sindexQueryP]
  | cons sg rest ih =>
    intro k i
    cases hpb : p sg.geom with
    | true =>
      have hif : sindexQueryP p (sg :: rest) k = k :: sindexQueryP p rest (k + 1) := by
        simp [sindexQueryP, hpb]
      rw [hif, List.mem_cons, ih]
      constructor
      · rintro (rfl | ⟨j, hj, hpj, rfl⟩)
        · exact ⟨0, by simp, by simpa using hpb, by omega⟩
        · exact ⟨j + 1, by simp only [List.length_cons]; omega,
            by simpa using hpj, by omega⟩
      · rintro ⟨j, hj, hpj, rfl⟩
        cases j with
        | zero => left; omega
        | succ j' =>
          right
          refine ⟨j', by simp only [List.length_cons] at hj; omega, ?_, by omega⟩
          simpa using hpj
    | false =>
      have hif : sindexQueryP p (sg :: rest) k = sindexQueryP p rest (k + 1) := by
        simp [sindexQueryP, hpb]
      rw [hif, ih]
      constructor
      · rintro ⟨j, hj, hpj, rfl⟩
        exact ⟨j + 1, by simp only [List.length_cons]; omega,
          by simpa using hpj, by omega⟩
      · rintro ⟨j, hj, hpj, rfl⟩
        cases j with
        | zero =>
          rw [List.getElem_cons_zero] at hpj
          rw [hpj] at hpb
          cases hpb
        | succ j' =>
          exact ⟨j', by simp only [List.length_cons] at hj; omega,
            by simpa using hpj, by omega⟩

theorem sindexQueryP_eq_nil {p : List Pt → Bool} :
    ∀ {segs : List Seg} {k : ℕ},
      sindexQueryP p segs k = [] ↔ ∀ sg ∈ segs, p sg.geom = false := by
  intro segs
  induction segs with
  | nil => intro k; simp [sindexQueryP]
  | cons sg rest ih =>
    intro k
    cases hpb : p sg.geom with
    | true =>
      have hif : sindexQueryP p (sg :: rest) k = k :: sindexQueryP p rest (k + 1) := by
        simp [sindexQueryP, hpb]
      rw [hif]
      simp only [List.mem_cons]
      constructor
      · intro h; cases h
      · intro h
        have := h sg (Or.inl rfl)
        rw [hpb] at this
        cases this
    | false =>
      have hif : sindexQueryP p (sg :: rest) k = sindexQueryP p rest (k + 1) := by
        simp [sindexQueryP, hpb]
      rw [hif, ih]
      constructor
      · intro h t ht
        rcases List.mem_cons.mp ht with rfl | htr
        · exact hpb
        · exact h t htr
      · intro h t ht
        exact h t (List.mem_cons_of_mem _ ht)

theorem sindexQueryP_length {p : List Pt → Bool} :
    ∀ {segs : List Seg} {k : ℕ},
      (sindexQueryP p segs k).length = segs.countP (fun sg => p sg.geom) := by
  intro segs
  induction segs with
  | nil => intro k; simp [sindexQueryP]
  | cons sg rest ih =>
    intro k
    cases hpb : p sg.geom with
    | true =>
      have hif : sindexQueryP p (sg :: rest) k = k :: sindexQueryP p rest (k + 1) := by
        simp [sindexQueryP, hpb]
      rw [hif, List.length_cons, ih, List.countP_cons, hpb]
      simp
    | false =>
      have hif : sindexQueryP p (sg :: rest) k = sindexQueryP p rest (k + 1) := by
        simp [sindexQueryP, hpb]
      rw [hif, ih, List.countP_cons, hpb]
      simp

/-- Mapping the positional query through a correct `idx_id_lookup` yields
exactly the identifiers of the arcs satisfying the predicate. -/
theorem mem_map_buildIdx_sindexQueryP {p : List Pt → Bool} {segs : List Seg}
    {id : String} :
    id ∈ (sindexQueryP p segs 0).map (buildIdxIdLookup segs) ↔
      ∃ sg ∈ segs, p sg.geom = true ∧ sg.sid = id := by
  simp only [List.mem_map, mem_sindexQueryP]
  constructor
  · rintro ⟨i, ⟨j, hj, hpj, rfl⟩, hlk⟩
    refine ⟨segs[j], List.getElem_mem hj, hpj, ?_⟩
    rw [← hlk]
    simp [buildIdxIdLookup, List.getElem?_eq_getElem hj]
  · rintro ⟨sg, hsg, hpsg, rfl⟩
    rcases List.mem_iff_getElem.mp hsg with ⟨j, hj, rfl⟩
    refine ⟨j, ⟨j, hj, hpsg, by omega⟩, ?_⟩
    simp [buildIdxIdLookup, List.getElem?_eq_getElem hj]

/-! Order properties of the pair comparison used by `ordered_pairs`. -/

theorem ptLtB_trans {a b c : Pt} (h1 : ptLtB a b = true)
    (h2 : ptLtB b c = true) : ptLtB a c = true := by
  simp only [ptLtB, Bool.or_eq_true, Bool.and_eq_true, decide_eq_true_eq] at *
  rcases h1 with h1 | ⟨h1e, h1s⟩ <;> rcases h2 with h2 | ⟨h2e, h2s⟩
  · exact Or.inl (h1.trans h2)
  · exact Or.inl (lt_of_lt_of_le h1 (le_of_eq h2e))
  · exact Or.inl (lt_of_le_of_lt (le_of_eq h1e) h2)
  · exact Or.inr ⟨h1e.trans h2e, h1s.trans h2s⟩

theorem ptLtB_trichot (a b : Pt) :
    ptLtB a b = true ∨ a = b ∨ ptLtB b a = true := by
  simp only [ptLtB, Bool.or_eq_true, Bool.and_eq_true, decide_eq_true_eq]
  rcases lt_trichotomy a.1 b.1 with h | h | h
  · exact Or.inl (Or.inl h)
  · rcases lt_trichotomy a.2 b.2 with h2 | h2 | h2
    · exact Or.inl (Or.inr ⟨h, h2⟩)
    · exact Or.inr (Or.inl (Prod.ext_iff.mpr ⟨h, h2⟩))
    · exact Or.inr (Or.inr (Or.inr ⟨h.symm, h2⟩))
  · exact Or.inr (Or.inr (Or.inl h))

theorem ptLeB_trans {a b c : Pt} (h1 : ptLeB a b = true)
    (h2 : ptLeB b c = true) : ptLeB a c = true := by
  simp only [ptLeB, Bool.or_eq_true, decide_eq_true_eq] at *
  rcases h1 with h1 | rfl
  · rcases h2 with h2 | rfl
    · exact Or.inl (ptLtB_trans h1 h2)
    · exact Or.inl h1
  · exact h2

theorem pairLeB_trans (a b c : Pt × Pt) (h1 : pairLeB a b = true)
    (h2 : pairLeB b c = true) : pairLeB a c = true := by
  simp only [pairLeB, Bool.or_eq_true, Bool.and_eq_true, decide_eq_true_eq] at *
  rcases h1 with h1 | ⟨h1e, h1s⟩ <;> rcases h2 with h2 | ⟨h2e, h2s⟩
  · exact Or.inl (ptLtB_trans h1 h2)
  · exact Or.inl (h2e ▸ h1)
  · exact Or.inl (h1e ▸ h2)
  · exact Or.inr ⟨h1e.trans h2e, ptLeB_trans h1s h2s⟩

theorem pairLeB_total (a b : Pt × Pt) :
    (pairLeB a b || pairLeB b a) = true := by
  simp only [pairLeB, Bool.or_eq_true, Bool.and_eq_true, decide_eq_true_eq]
  rcases ptLtB_trichot a.1 b.1 with h | h | h
  · exact Or.inl (Or.inl h)
  · rcases ptLtB_trichot a.2 b.2 with h2 | h2 | h2
    · exact Or.inl (Or.inr ⟨h, by simp [ptLeB, h2]⟩)
    · exact Or.inl (Or.inr ⟨h, by simp [ptLeB, h2]⟩)
    · exact Or.inr (Or.inr ⟨h.symm, by simp [ptLeB, h2]⟩)
  · exact Or.inr (Or.inl h)

/-- C10: for a vertex tuple with at least 2 vertices, `ordered_pairs`
returns exactly `n - 1` pairs forming a permutation, in ascending
(lexicographic) sorted order, of the tuple's consecutive-vertex pairs; for
fewer than 2 vertices it returns the empty list. -/
theorem ordered_pairs_spec (coords : List Pt) :
    (2 ≤ coords.length →
       (ordered_pairs coords).length = coords.length - 1 ∧
       (ordered_pairs coords).Perm (consecutivePairs coords) ∧
       (ordered_pairs coords).Pairwise (fun p q => pairLeB p q = true)) ∧
    (coords.length < 2 → ordered_pairs coords = []) := by
  constructor
  · intro h2
    refine ⟨?_, List.mergeSort_perm _ pairLeB, ?_⟩
    · rw [ordered_pairs, List.length_mergeSort, consecutivePairs,
        List.length_zip, List.length_tail]
      omega
    · exact List.sorted_mergeSort
        (fun a b c hab hbc => pairLeB_trans a b c hab hbc)
        pairLeB_total (consecutivePairs coords)
  · intro hlt
    match coords, hlt with
    | [], _ => simp [ordered_pairs, consecutivePairs]
    | [a], _ => simp [ordered_pairs, consecutivePairs]

/-- C10 witness: the concrete vertex tuple (0,0), (5,1), (2,2). -/
theorem ordered_pairs_spec_witness :
    (ordered_pairs [((0 : ℚ), (0 : ℚ)), (5, 1), (2, 2)]).length = 2 ∧
    (ordered_pairs [((0 : ℚ), (0 : ℚ)), (5, 1), (2, 2)]).Perm
      (consecutivePairs [((0 : ℚ), (0 : ℚ)), (5, 1), (2, 2)]) ∧
    (ordered_pairs [((0 : ℚ), (0 : ℚ)), (5, 1), (2, 2)]).Pairwise
      (fun p q => pairLeB p q = true) :=
  (ordered_pairs_spec [((0 : ℚ), (0 : ℚ)), (5, 1), (2, 2)]).1 (by decide)

/-! C8: idempotence of coordinate rounding. -/

theorem roundTo_roundTo (p : ℕ) (q : ℚ) :
    roundTo p (roundTo p q) = roundTo p q := by
  unfold roundTo
  have hne : ((10 : ℚ)) ^ p ≠ 0 := by positivity
  rw [div_mul_cancel₀ _ hne, round_intCast]

/-- C8: the coordinate rounding step of standardization is idempotent: for
every geometry collection `g`, `round_coordinates (round_coordinates g 7) 7`
equals `round_coordinates g 7`. -/
theorem round_coordinates_idempotent (g : List (List ℚ)) :
    round_coordinates 7 (round_coordinates 7 g) = round_coordinates 7 g := by
  unfold round_coordinates
  rw [List.map_map]
  apply List.map_congr_left
  intro geom _
  simp only [Function.comp_apply, List.map_map]
  apply List.map_congr_left
  intro q _
  exact roundTo_roundTo 7 q

/-! C9: identifier uniqueness after repair. -/

/-- Shape of the elements produced by the resolution fold: each output is
either a fresh identifier with index in the consumed window, or a retained
(valid) input identifier. -/
theorem resolveIdsAux_mem_shape {fresh : ℕ → String} {all : List String} :
    ∀ {xs : List String} {k : ℕ} {y : String},
      y ∈ resolveIdsAux fresh all xs k →
      (∃ m, k ≤ m ∧ m < k + xs.countP (invalidId all) ∧ y = fresh m) ∨
      (y ∈ xs ∧ invalidId all y = false) := by
  intro xs
  induction xs with
  | nil => intro k y hy; simp [resolveIdsAux] at hy
  | cons x xs ih =>
    intro k y hy
    by_cases hx : invalidId all x = true
    · rw [resolveIdsAux, if_pos hx] at hy
      rcases List.mem_cons.mp hy with rfl | hy'
      · left
        refine ⟨k, le_refl k, ?_, rfl⟩
        have hcnt : (x :: xs).countP (invalidId all) =
            xs.countP (invalidId all) + 1 := by
          rw [List.countP_cons, hx]
          simp
        omega
      · rcases ih hy' with ⟨m, hm1, hm2, rfl⟩ | ⟨hyx, hyv⟩
        · left
          refine ⟨m, by omega, ?_, rfl⟩
          have hcnt : (x :: xs).countP (invalidId all) =
              xs.countP (invalidId all) + 1 := by
            rw [List.countP_cons, hx]
            simp
          omega
        · exact Or.inr ⟨List.mem_cons_of_mem _ hyx, hyv⟩
    · rw [resolveIdsAux, if_neg hx] at hy
      rcases List.mem_cons.mp hy with rfl | hy'
      · exact Or.inr ⟨List.mem_cons_self _ _, Bool.eq_false_iff.mpr hx⟩
      · rcases ih hy' with ⟨m, hm1, hm2, rfl⟩ | ⟨hyx, hyv⟩
        · left
          refine ⟨m, hm1, ?_, rfl⟩
          rw [List.countP_cons, if_neg hx]
          omega
        · exact Or.inr ⟨List.mem_cons_of_mem _ hyx, hyv⟩

/-- The resolution fold produces pairwise distinct identifiers, given fresh
identifiers pairwise distinct and distinct from every retained input
identifier. -/
theorem resolveIdsAux_nodup {fresh : ℕ → String} {all : List String}
    (hinj : ∀ i < numInvalid all, ∀ j < numInvalid all,
      fresh i = fresh j → i = j)
    (hret : ∀ m < numInvalid all, ∀ y ∈ all,
      invalidId all y = false → fresh m ≠ y) :
    ∀ {xs : List String} {k : ℕ}, xs.Sublist all →
      k + xs.countP (invalidId all) ≤ numInvalid all →
      (resolveIdsAux fresh all xs k).Nodup := by
  intro xs
  induction xs with
  | nil => intro k _ _; simp [resolveIdsAux]
  | cons x xs ih =>
    intro k hsub hbound
    have hsub' : xs.Sublist all := List.sublist_of_cons_sublist hsub
    by_cases hx : invalidId all x = true
    · have hcnt : (x :: xs).countP (invalidId all) =
          xs.countP (invalidId all) + 1 := by
        rw [List.countP_cons, hx]
        simp
      rw [resolveIdsAux, if_pos hx, List.nodup_cons]
      constructor
      · intro hmem
        rcases resolveIdsAux_mem_shape hmem with ⟨m, hm1, hm2, heq⟩ | ⟨hyx, hyv⟩
        · have hkN : k < numInvalid all := by omega
          have hmN : m < numInvalid all := by omega
          have := hinj k hkN m hmN heq
          omega
        · have hkN : k < numInvalid all := by omega
          exact hret k hkN (fresh k) (hsub'.subset hyx) hyv rfl
      · exact ih hsub' (by omega)
    · have hxv : invalidId all x = false := Bool.eq_false_iff.mpr hx
      have hcnt : (x :: xs).countP (invalidId all) =
          xs.countP (invalidId all) := by
        rw [List.countP_cons, if_neg hx]
        simp
      rw [resolveIdsAux, if_neg hx, List.nodup_cons]
      constructor
      · intro hmem
        rcases resolveIdsAux_mem_shape hmem with ⟨m, hm1, hm2, heq⟩ | ⟨hyx, hyv⟩
        · have hmN : m < numInvalid all := by omega
          have hxall : x ∈ all := hsub.subset (List.mem_cons_self _ _)
          exact hret m hmN x hxall hxv heq.symm
        · -- x would occur at least twice in the full column, so it would
          -- have been flagged as a duplicate (or as non-hex if x = "None")
          have hxall : (x :: xs).count x ≤ all.count x := hsub.count_le x
          have h2 : 2 ≤ all.count x := by
            rw [List.count_cons] at hxall
            have h1 : 1 ≤ xs.count x := List.count_pos_iff.mpr hyx
            simp at hxall
            omega
          have : invalidId all x = true := by
            by_cases hnone : x = "None"
            · subst hnone
              have hnh : isHex32 "None" = false := by decide
              simp [invalidId, hnh]
            · simp [invalidId, h2, hnone]
          rw [this] at hxv
          cases hxv
      · exact ih hsub' (by omega)

/-- Every identifier produced by the resolution fold is 32-hexadecimal,
given that fresh identifiers are. -/
theorem resolveIdsAux_hex {fresh : ℕ → String} {all : List String}
    (hhex : ∀ m < numInvalid all, isHex32 (fresh m) = true) :
    ∀ {xs : List String} {k : ℕ},
      k + xs.countP (invalidId all) ≤ numInvalid all →
      ∀ y ∈ resolveIdsAux fresh all xs k, isHex32 y = true := by
  intro xs k hbound y hy
  rcases resolveIdsAux_mem_shape hy with ⟨m, hm1, hm2, rfl⟩ | ⟨hyx, hyv⟩
  · exact hhex m (by omega)
  · have := Bool.or_eq_false_iff.mp hyv
    have h1 : (!isHex32 y) = false := this.1
    simpa using h1

/-- C9: after the Validator's identifier-resolution step, all identifiers
are pairwise distinct (in particular no two non-null identifiers are equal)
and every identifier is exactly 32 hexadecimal characters, under the
hypothesis that the freshly generated identifiers actually consumed are
pairwise distinct, distinct from all retained identifiers, and themselves
32-hexadecimal (as `uuid.uuid4().hex` values are). -/
theorem resolveIdentifiers_unique_hex (ids : List String) (fresh : ℕ → String)
    (hinj : ∀ i < numInvalid ids, ∀ j < numInvalid ids,
      fresh i = fresh j → i = j)
    (hret : ∀ m < numInvalid ids, ∀ y ∈ ids,
      invalidId ids y = false → fresh m ≠ y)
    (hhex : ∀ m < numInvalid ids, isHex32 (fresh m) = true) :
    (resolveIdentifiers fresh ids).Nodup ∧
      ∀ y ∈ resolveIdentifiers fresh ids, isHex32 y = true := by
  constructor
  · exact resolveIdsAux_nodup hinj hret (List.Sublist.refl ids)
      (by simp [numInvalid])
  · exact resolveIdsAux_hex hhex (by simp [numInvalid])

/-- C9 witness: the single invalid identifier `"zz"` is replaced by the
fresh 32-hex value, yielding a unique all-hex collection. -/
theorem resolveIdentifiers_unique_hex_witness :
    (resolveIdentifiers exFresh ["zz"]).Nodup ∧
      ∀ y ∈ resolveIdentifiers exFresh ["zz"], isHex32 y = true :=
  resolveIdentifiers_unique_hex ["zz"] exFresh
    (by decide) (by decide) (by decide)

/-! C7: failure semantics of `execute`. -/

theorem executeRun_error_no_report :
    ∀ (rules : List (ℕ × Except PyExc CheckResult))
      (acc : List (ℕ × CheckResult)),
      (∃ p ∈ rules, ∃ e, p.2 = Except.error e) →
      ∀ entries, executeRun rules acc ≠ RunOutcome.report entries := by
  intro rules
  induction rules with
  | nil =>
    rintro acc ⟨p, hp, _⟩ entries
    exact absurd hp (List.not_mem_nil p)
  | cons r rest ih =>
    rintro acc ⟨p, hp, e, he⟩ entries
    obtain ⟨c, o⟩ := r
    cases o with
    | error e' =>
      show (if caughtExc.contains e' then RunOutcome.fatalExit
            else RunOutcome.uncaught e') ≠ _
      split <;> intro h <;> cases h
    | ok res =>
      rcases List.mem_cons.mp hp with rfl | hp'
      · cases he
      · exact ih _ ⟨p, hp', e, he⟩ entries

theorem executeRun_all_ok :
    ∀ (rules : List (ℕ × Except PyExc CheckResult))
      (acc : List (ℕ × CheckResult)),
      (∀ p ∈ rules, ∃ r, p.2 = Except.ok r) →
      executeRun rules acc = RunOutcome.report (acc ++ fullReport rules) := by
  intro rules
  induction rules with
  | nil => intro acc _; simp [executeRun, fullReport]
  | cons r rest ih =>
    intro acc hok
    obtain ⟨c, o⟩ := r
    cases o with
    | error e =>
      rcases hok (c, Except.error e) (List.mem_cons_self _ _) with ⟨r', hr'⟩
      cases hr'
    | ok res =>
      have hrest : ∀ p ∈ rest, ∃ r, p.2 = Except.ok r :=
        fun p hp => hok p (List.mem_cons_of_mem _ hp)
      show executeRun rest (if res.values.isEmpty then acc else acc ++ [(c, res)]) = _
      rw [ih _ hrest]
      by_cases hv : res.values.isEmpty
      · simp [fullReport, okEntry, hv]
      · simp [fullReport, okEntry, hv]

/-- C7 (amended): the validations are declared in the fixed order
101, 102, 103, 104, 201, 202, 301, 302, 303; if any rule's check raises an
exception, `execute` delivers no report (it exits fatally for the caught
`KeyError`/`SyntaxError`/`ValueError` kinds, and any other exception —
including `TypeError` — propagates and likewise aborts the run); if no rule
raises, all rules run in order and the full report of non-empty results is
produced. -/
theorem execute_failure_semantics :
    (∀ G : Geo, (validations G).map (fun e => e.1) =
        [101, 102, 103, 104, 201, 202, 301, 302, 303]) ∧
    ∀ rules : List (ℕ × Except PyExc CheckResult),
      ((∃ p ∈ rules, ∃ e, p.2 = Except.error e) →
        ∀ entries, executeValidations rules ≠ RunOutcome.report entries) ∧
      ((∀ p ∈ rules, ∃ r, p.2 = Except.ok r) →
        executeValidations rules = RunOutcome.report (fullReport rules)) := by
  constructor
  · intro G; rfl
  · intro rules
    constructor
    · intro hex entries
      exact executeRun_error_no_report rules [] hex entries
    · intro hok
      have h := executeRun_all_ok rules [] hok
      simpa [executeValidations] using h

/-- C7 counterexample: a single rule raising `SyntaxError` — which is none
of `KeyError`, `TypeError`, `ValueError` — still makes `execute` exit
fatally with no report, contradicting the claim that in that case all rules
run and the full report is produced. -/
theorem execute_failure_semantics_cex :
    PyExc.syntaxError ≠ PyExc.keyError ∧
    PyExc.syntaxError ≠ PyExc.typeError ∧
    PyExc.syntaxError ≠ PyExc.valueError ∧
    executeValidations
      [((101 : ℕ), (Except.error PyExc.syntaxError : Except PyExc CheckResult))] =
      RunOutcome.fatalExit := by
  refine ⟨by decide, by decide, by decide, ?_⟩
  rfl

/-- C7 witness: an exception-free run of one rule with a non-empty result
delivers exactly that result. -/
theorem execute_failure_semantics_witness :
    executeValidations
        [((101 : ℕ), Except.ok (⟨["x"], some ["x"]⟩ : CheckResult))] =
      RunOutcome.report [(101, ⟨["x"], some ["x"]⟩)] := by
  have h := (execute_failure_semantics.2
    [((101 : ℕ), Except.ok (⟨["x"], some ["x"]⟩ : CheckResult))]).2 ?_
  · rw [h]
    rfl
  · rintro p hp
    rcases List.mem_cons.mp hp with rfl | h'
    · exact ⟨_, rfl⟩
    · exact absurd h' (List.not_mem_nil p)

/-! C6: frame property of rule execution. -/

/-- C6: every check among 101, 102, 103, 104, 201, 202, 301 and 302 leaves
the Validator's state (standardized arcs, original arcs, and both lookups)
unchanged; the segmentation check 303 leaves the standardized arcs and both
lookups unchanged — only the original collection may be rewritten. -/
theorem validator_frame (G : Geo) (s : VState) :
    (∀ code ∈ [101, 102, 103, 104, 201, 202, 301, 302],
        (runValidation G code s).2 = s) ∧
    (runValidation G 303 s).2.segment = s.segment ∧
    (runValidation G 303 s).2.ptsIdLookup = s.ptsIdLookup ∧
    (runValidation G 303 s).2.idxIdLookup = s.idxIdLookup := by
  refine ⟨?_, ?_, ?_, ?_⟩
  · intro code hc
    fin_cases hc <;> rfl
  · show (connectivity_segmentation G s).2.segment = s.segment
    unfold connectivity_segmentation
    split <;> rfl
  · show (connectivity_segmentation G s).2.ptsIdLookup = s.ptsIdLookup
    unfold connectivity_segmentation
    split <;> rfl
  · show (connectivity_segmentation G s).2.idxIdLookup = s.idxIdLookup
    unfold connectivity_segmentation
    split <;> rfl

/-- C6 witness: concrete frame facts at the crossing fixture. -/
theorem validator_frame_witness :
    (runValidation exG1 101 exS1).2 = exS1 ∧
    (runValidation exG1 303 exS1).2.segment = exS1.segment :=
  ⟨(validator_frame exG1 exS1).1 101 (by decide),
   (validator_frame exG1 exS1).2.1⟩

/-! C1: the segmentation check never reports. -/

/-- C1: at a fixture where the two arcs topologically cross, the
segmentation check still returns an empty `values` list (the source
initializes the error record and never populates it), and consequently rule
303 does not appear in the report `execute` accumulates. -/
theorem connectivity_segmentation_never_reports :
    exG1.crosses gA1 gB1 = true ∧
    (connectivity_segmentation exG1 exS1).1.values = [] ∧
    ((executeReport exG1 exS1).1.map (fun e => e.1)).contains 303 = false := by
  decide

/-! C3: node-intersection characterization. -/

theorem mem_mkResult_values {vals : List String} {id : String} :
    id ∈ (mkResult vals).values ↔ id ∈ vals := by
  unfold mkResult
  by_cases h : vals.isEmpty
  · rw [if_pos h]
    simp [List.isEmpty_iff.mp h]
  · rw [if_neg h]

theorem interiorOf_subset_geom {sg : Seg} {pt : Pt} (h : pt ∈ interiorOf sg) :
    pt ∈ sg.geom :=
  List.mem_of_mem_drop (List.mem_of_mem_dropLast h)

/-- C3 (amended): an arc is flagged by the node-intersection check iff one
of its interior vertices is both a node of some arc and an interior vertex
of some arc with more than 2 vertices — with no requirement that more than
one arc touch the coordinate. -/
theorem connectivity_node_intersection_amended (s : VState)
    (hpts : s.ptsIdLookup = buildPtsIdLookup s.segment)
    (hN : (s.segment.map Seg.sid).Nodup) :
    ∀ sg ∈ s.segment,
      (sg.sid ∈ (connectivity_node_intersection s).values ↔
        ∃ pt ∈ interiorOf sg,
          pt ∈ nodesOf s.segment ∧ pt ∈ nonNodeVertices s.segment) := by
  intro sg hsg
  have hinv : ∀ pt : Pt, pt ∈ invalidPts301 s.segment ↔
      pt ∈ nodesOf s.segment ∧ pt ∈ nonNodeVertices s.segment := by
    intro pt
    simp [invalidPts301, List.mem_filter, List.elem_iff]
  constructor
  · intro hmem
    unfold connectivity_node_intersection at hmem
    by_cases hempty : (invalidPts301 s.segment).isEmpty
    · rw [if_pos hempty] at hmem
      simp at hmem
    · rw [if_neg hempty] at hmem
      rw [mem_mkResult_values, mem_uniqueFirst] at hmem
      rcases List.mem_map.mp hmem with ⟨sg', hsg', hsid⟩
      rcases List.mem_filter.mp hsg' with ⟨hsgF, hcond⟩
      rcases List.mem_filter.mp hsgF with ⟨hsgSeg, _⟩
      have hEq : sg' = sg := List.inj_on_of_nodup_map hN hsgSeg hsg hsid
      subst hEq
      have : ¬ ((interiorOf sg').filter
          (fun pt => (invalidPts301 s.segment).contains pt)).isEmpty = true := by
        simpa using hcond
      rw [List.isEmpty_iff] at this
      rcases List.exists_mem_of_ne_nil _ this with ⟨pt, hpt⟩
      rcases List.mem_filter.mp hpt with ⟨hptI, hptInv⟩
      have hptInv' : pt ∈ invalidPts301 s.segment := List.elem_iff.mp hptInv
      exact ⟨pt, hptI, (hinv pt).mp hptInv'⟩
  · rintro ⟨pt, hptI, hptN, hptNN⟩
    have hptInv : pt ∈ invalidPts301 s.segment := (hinv pt).mpr ⟨hptN, hptNN⟩
    have hempty : ¬ (invalidPts301 s.segment).isEmpty = true := by
      rw [List.isEmpty_iff]
      intro hnil
      rw [hnil] at hptInv
      exact absurd hptInv (List.not_mem_nil pt)
    unfold connectivity_node_intersection
    rw [if_neg hempty, mem_mkResult_values, mem_uniqueFirst]
    apply List.mem_map.mpr
    refine ⟨sg, ?_, rfl⟩
    apply List.mem_filter.mpr
    constructor
    · apply List.mem_filter.mpr
      refine ⟨hsg, ?_⟩
      apply List.elem_iff.mpr
      apply List.mem_flatMap.mpr
      refine ⟨pt, hptInv, ?_⟩
      rw [hpts]
      unfold buildPtsIdLookup
      apply List.mem_map.mpr
      refine ⟨sg, ?_, rfl⟩
      apply List.mem_filter.mpr
      exact ⟨hsg, by simpa using interiorOf_subset_geom hptI⟩
    · have hmemf : pt ∈ (interiorOf sg).filter
          (fun q => (invalidPts301 s.segment).contains q) :=
        List.mem_filter.mpr ⟨hptI, List.elem_iff.mpr hptInv⟩
      have hne : ((interiorOf sg).filter
          (fun q => (invalidPts301 s.segment).contains q)) ≠ [] := by
        intro hnil
        rw [hnil] at hmemf
        exact absurd hmemf (List.not_mem_nil pt)
      have hfalse : ((interiorOf sg).filter
          (fun q => (invalidPts301 s.segment).contains q)).isEmpty = false :=
        Bool.eq_false_iff.mpr (fun h => hne (List.isEmpty_iff.mp h))
      show (!((interiorOf sg).filter
          (fun q => (invalidPts301 s.segment).contains q)).isEmpty) = true
      rw [hfalse]
      rfl

/-- C3 counterexample: in the single-arc fixture, every coordinate is
touched by at most one arc — so under the claim's definition (which requires
more than one arc touching the coordinate) the violation-point set is empty
and no arc should be flagged — yet the check flags the arc. -/
theorem connectivity_node_intersection_cex :
    (connectivity_node_intersection exS3).values = ["A"] ∧
    (nodesOf segs3 ++ nonNodeVertices segs3).all
      (fun pt => decide
        (segs3.countP (fun sg => decide (pt ∈ sg.geom)) ≤ 1)) = true := by
  decide

/-- C3 witness: the amended characterization applied at the fixture, where
the end node (1,0) is also an interior vertex of the same arc. -/
theorem connectivity_node_intersection_amended_witness :
    (⟨"A", "None", gA3⟩ : Seg).sid ∈
      (connectivity_node_intersection exS3).values :=
  (connectivity_node_intersection_amended exS3 rfl (by decide)
      ⟨"A", "None", gA3⟩ (by decide)).mpr
    ⟨((1 : ℚ), (0 : ℚ)), by decide, by decide, by decide⟩

/-! C4: min-length characterization. -/

theorem count_map_eq_countP {α β : Type} [BEq β] [LawfulBEq β] (f : α → β)
    (l : List α) (b : β) :
    (l.map f).count b = l.countP (fun a => f a == b) := by
  induction l with
  | nil => simp
  | cons x xs ih =>
    rw [List.map_cons, List.count_cons, ih, List.countP_cons]

theorem count_structureNodes (segs : List Seg) (p : Pt) :
    (structureNodes segs).count p =
      (structuresOf segs).countP (fun b => decide (ptStart b = p)) +
      (structuresOf segs).countP (fun b => decide (ptEnd b = p)) := by
  unfold structureNodes
  rw [List.count_append, count_map_eq_countP, count_map_eq_countP]
  congr 1 <;> apply List.countP_congr <;> intro a _ <;> simp [beq_iff_eq]

/-- The duplicated-structure-node computation characterizes isolation
exactly as: distinct endpoints, and no other structure arc touching either
endpoint with one of its endpoints. -/
theorem mem_isolatedStructureIds_iff {segs : List Seg}
    (hN : (segs.map Seg.sid).Nodup) {sg : Seg}
    (hsgS : sg ∈ structuresOf segs) :
    sg.sid ∈ isolatedStructureIds segs ↔
      (ptStart sg ≠ ptEnd sg ∧
       ∀ b ∈ structuresOf segs, b.sid ≠ sg.sid →
         ptStart b ≠ ptStart sg ∧ ptEnd b ≠ ptStart sg ∧
         ptStart b ≠ ptEnd sg ∧ ptEnd b ≠ ptEnd sg) := by
  have hsub : ∀ {b : Seg}, b ∈ structuresOf segs → b ∈ segs :=
    fun {b} hb => List.mem_of_mem_filter hb
  have sidInj : ∀ {x : Seg}, x ∈ structuresOf segs → ∀ {y : Seg},
      y ∈ structuresOf segs → x.sid = y.sid → x = y :=
    fun {x} hx {y} hy h => List.inj_on_of_nodup_map hN (hsub hx) (hsub hy) h
  have hNS : ((structuresOf segs).map Seg.sid).Nodup :=
    hN.sublist (List.Sublist.map Seg.sid (List.filter_sublist segs))
  have hNrec : (structuresOf segs).Nodup := List.Nodup.of_map _ hNS
  have hmemiso : sg.sid ∈ isolatedStructureIds segs ↔
      (structureNodes segs).count (ptStart sg) ≤ 1 ∧
      (structureNodes segs).count (ptEnd sg) ≤ 1 := by
    unfold isolatedStructureIds
    constructor
    · intro h
      rcases List.mem_map.mp h with ⟨t, ht, hsid⟩
      rcases List.mem_filter.mp ht with ⟨htS, hcond⟩
      have hts : t = sg := sidInj htS hsgS hsid
      subst hts
      simp only [Bool.not_eq_true', Bool.or_eq_false_iff,
        decide_eq_false_iff_not] at hcond
      exact ⟨by omega, by omega⟩
    · rintro ⟨h1, h2⟩
      apply List.mem_map.mpr
      refine ⟨sg, List.mem_filter.mpr ⟨hsgS, ?_⟩, rfl⟩
      simp only [Bool.not_eq_true', Bool.or_eq_false_iff,
        decide_eq_false_iff_not]
      exact ⟨by omega, by omega⟩
  rw [hmemiso, count_structureNodes, count_structureNodes]
  constructor
  · rintro ⟨h1, h2⟩
    have hne : ptStart sg ≠ ptEnd sg := by
      intro he
      have hs1 : 0 < (structuresOf segs).countP
          (fun b => decide (ptStart b = ptStart sg)) :=
        List.countP_pos_iff.mpr ⟨sg, hsgS, by simp⟩
      have hs2 : 0 < (structuresOf segs).countP
          (fun b => decide (ptEnd b = ptStart sg)) :=
        List.countP_pos_iff.mpr ⟨sg, hsgS, by simp [he.symm]⟩
      omega
    refine ⟨hne, ?_⟩
    intro b hb hsid
    have hbne : b ≠ sg := fun h => hsid (by rw [h])
    refine ⟨?_, ?_, ?_, ?_⟩
    · intro hss
      have : 2 ≤ (structuresOf segs).countP
          (fun t => decide (ptStart t = ptStart sg)) :=
        two_le_countP_of_mem hb hsgS hbne (by simp [hss]) (by simp)
      omega
    · intro hes
      have hc1 : 0 < (structuresOf segs).countP
          (fun t => decide (ptStart t = ptStart sg)) :=
        List.countP_pos_iff.mpr ⟨sg, hsgS, by simp⟩
      have hc2 : 0 < (structuresOf segs).countP
          (fun t => decide (ptEnd t = ptStart sg)) :=
        List.countP_pos_iff.mpr ⟨b, hb, by simp [hes]⟩
      omega
    · intro hse
      have hc1 : 0 < (structuresOf segs).countP
          (fun t => decide (ptStart t = ptEnd sg)) :=
        List.countP_pos_iff.mpr ⟨b, hb, by simp [hse]⟩
      have hc2 : 0 < (structuresOf segs).countP
          (fun t => decide (ptEnd t = ptEnd sg)) :=
        List.countP_pos_iff.mpr ⟨sg, hsgS, by simp⟩
      omega
    · intro hee
      have : 2 ≤ (structuresOf segs).countP
          (fun t => decide (ptEnd t = ptEnd sg)) :=
        two_le_countP_of_mem hb hsgS hbne (by simp [hee]) (by simp)
      omega
  · rintro ⟨hne, hothers⟩
    have huniq : ∀ (q : Pt) (hq : q = ptStart sg ∨ q = ptEnd sg), True := fun _ _ => trivial
    have hcs1 : (structuresOf segs).countP
        (fun t => decide (ptStart t = ptStart sg)) ≤ 1 := by
      apply countP_le_one_of_nodup hNrec
      intro x hx y hy hpx hpy
      simp only [decide_eq_true_eq] at hpx hpy
      have hxsid : x.sid = sg.sid := by
        by_contra hxs
        exact (hothers x hx hxs).1 hpx
      have hysid : y.sid = sg.sid := by
        by_contra hys
        exact (hothers y hy hys).1 hpy
      have hx' : x = sg := sidInj hx hsgS hxsid
      have hy' : y = sg := sidInj hy hsgS hysid
      rw [hx', hy']
    have hce1 : (structuresOf segs).countP
        (fun t => decide (ptEnd t = ptStart sg)) = 0 := by
      rw [List.countP_eq_zero]
      intro b hb
      simp only [decide_eq_true_eq]
      intro hbe
      by_cases hbs : b.sid = sg.sid
      · have hb' : b = sg := sidInj hb hsgS hbs
        rw [hb'] at hbe
        exact hne hbe.symm
      · exact (hothers b hb hbs).2.1 hbe
    have hcs2 : (structuresOf segs).countP
        (fun t => decide (ptStart t = ptEnd sg)) = 0 := by
      rw [List.countP_eq_zero]
      intro b hb
      simp only [decide_eq_true_eq]
      intro hbe
      by_cases hbs : b.sid = sg.sid
      · have hb' : b = sg := sidInj hb hsgS hbs
        rw [hb'] at hbe
        exact hne hbe
      · exact (hothers b hb hbs).2.2.1 hbe
    have hce2 : (structuresOf segs).countP
        (fun t => decide (ptEnd t = ptEnd sg)) ≤ 1 := by
      apply countP_le_one_of_nodup hNrec
      intro x hx y hy hpx hpy
      simp only [decide_eq_true_eq] at hpx hpy
      have hxsid : x.sid = sg.sid := by
        by_contra hxs
        exact (hothers x hx hxs).2.2.2 hpx
      have hysid : y.sid = sg.sid := by
        by_contra hys
        exact (hothers y hy hys).2.2.2 hpy
      have hx' : x = sg := sidInj hx hsgS hxsid
      have hy' : y = sg := sidInj hy hsgS hysid
      rw [hx', hy']
    omega

/-- C4 (amended): an arc is flagged by the min-length check iff its length
is below 3 and the isolation exemption fails, where the exemption requires
the arc to be a structure, to have two distinct endpoints (a loop structure
arc is never exempt), and to share no endpoint with any other structure
arc. -/
theorem construction_min_length_amended (G : Geo) (s : VState)
    (hN : (s.segment.map Seg.sid).Nodup) :
    ∀ sg ∈ s.segment,
      (sg.sid ∈ (construction_min_length G s).values ↔
        (G.lengthOf sg.geom < 3 ∧
         ¬((sg.structure_type ≠ "Unknown" ∧ sg.structure_type ≠ "None") ∧
           ptStart sg ≠ ptEnd sg ∧
           ∀ b ∈ structuresOf s.segment, b.sid ≠ sg.sid →
             ptStart b ≠ ptStart sg ∧ ptEnd b ≠ ptStart sg ∧
             ptStart b ≠ ptEnd sg ∧ ptEnd b ≠ ptEnd sg))) := by
  intro sg hsg
  have hsub : ∀ {b : Seg}, b ∈ structuresOf s.segment → b ∈ s.segment :=
    fun {b} hb => List.mem_of_mem_filter hb
  have sidInj : ∀ {x y : Seg}, x ∈ s.segment → y ∈ s.segment →
      x.sid = y.sid → x = y :=
    fun {x y} hx hy h => List.inj_on_of_nodup_map hN hx hy h
  have hSmem : sg ∈ structuresOf s.segment ↔
      (sg.structure_type ≠ "Unknown" ∧ sg.structure_type ≠ "None") := by
    simp [structuresOf, List.mem_filter, hsg]
  have hiso : sg.sid ∈ isolatedStructureIds s.segment ↔
      ((sg.structure_type ≠ "Unknown" ∧ sg.structure_type ≠ "None") ∧
       ptStart sg ≠ ptEnd sg ∧
       ∀ b ∈ structuresOf s.segment, b.sid ≠ sg.sid →
         ptStart b ≠ ptStart sg ∧ ptEnd b ≠ ptStart sg ∧
         ptStart b ≠ ptEnd sg ∧ ptEnd b ≠ ptEnd sg) := by
    by_cases hS : sg ∈ structuresOf s.segment
    · rw [mem_isolatedStructureIds_iff hN hS]
      constructor
      · rintro ⟨h1, h2⟩
        exact ⟨hSmem.mp hS, h1, h2⟩
      · rintro ⟨_, h1, h2⟩
        exact ⟨h1, h2⟩
    · constructor
      · intro h
        exfalso
        rcases List.mem_map.mp h with ⟨t, ht, hsid⟩
        rcases List.mem_filter.mp ht with ⟨htS, _⟩
        have hts : t = sg := sidInj (hsub htS) hsg hsid
        rw [hts] at htS
        exact hS htS
      · rintro ⟨hst, _, _⟩
        exact absurd (hSmem.mpr hst) hS
  simp only [construction_min_length]
  by_cases hflag :
      (s.segment.filter (fun t => decide (G.lengthOf t.geom < 3))).isEmpty
  · rw [if_pos hflag]
    have hnoshort : ¬ (G.lengthOf sg.geom < 3) := by
      rw [List.isEmpty_iff, List.filter_eq_nil_iff] at hflag
      intro hlt
      exact hflag sg hsg (by simpa using hlt)
    constructor
    · intro h
      exact absurd h (by simp)
    · rintro ⟨hlt, _⟩
      exact absurd hlt hnoshort
  · rw [if_neg hflag, mem_mkResult_values, mem_uniqueFirst]
    constructor
    · intro h
      rcases List.mem_map.mp h with ⟨t, ht, hsid⟩
      rcases List.mem_filter.mp ht with ⟨htSeg, hcond⟩
      have hts : t = sg := sidInj htSeg hsg hsid
      subst hts
      rw [Bool.and_eq_true] at hcond
      obtain ⟨hlen, hniso⟩ := hcond
      refine ⟨by simpa using hlen, ?_⟩
      intro hrhs
      have hmemI : (isolatedStructureIds s.segment).contains t.sid = true :=
        List.elem_iff.mpr (hiso.mpr hrhs)
      have hcontains : (isolatedStructureIds s.segment).contains t.sid = false := by
        simpa using hniso
      rw [hcontains] at hmemI
      cases hmemI
    · rintro ⟨hlen, hnrhs⟩
      apply List.mem_map.mpr
      refine ⟨sg, List.mem_filter.mpr ⟨hsg, ?_⟩, rfl⟩
      rw [Bool.and_eq_true]
      refine ⟨by simpa using hlen, ?_⟩
      rw [Bool.not_eq_true']
      apply Bool.eq_false_iff.mpr
      intro hcont
      exact hnrhs (hiso.mp (List.elem_iff.mp hcont))

/-- C4 counterexample: a single short Bridge loop satisfies the claim's
exemption (it is a structure and no *other* structure arc shares either
endpoint), yet the check flags it, because its own two coincident endpoints
make the shared node count as duplicated. -/
theorem construction_min_length_cex :
    (construction_min_length exG4 exS4).values = ["A"] ∧
    exG4.lengthOf gA4 < 3 ∧
    (⟨"A", "Bridge", gA4⟩ : Seg).structure_type ≠ "Unknown" ∧
    (⟨"A", "Bridge", gA4⟩ : Seg).structure_type ≠ "None" ∧
    ∀ b ∈ structuresOf segs4, b.sid ≠ "A" →
      ptStart b ≠ ptStart ⟨"A", "Bridge", gA4⟩ ∧
      ptEnd b ≠ ptStart ⟨"A", "Bridge", gA4⟩ ∧
      ptStart b ≠ ptEnd ⟨"A", "Bridge", gA4⟩ ∧
      ptEnd b ≠ ptEnd ⟨"A", "Bridge", gA4⟩ := by
  decide

/-- C4 witness: the amended characterization applied at the loop-structure
fixture. -/
theorem construction_min_length_amended_witness :
    (⟨"A", "Bridge", gA4⟩ : Seg).sid ∈
      (construction_min_length exG4 exS4).values :=
  (construction_min_length_amended exG4 exS4 (by decide)
      ⟨"A", "Bridge", gA4⟩ (by decide)).mpr
    ⟨by decide, by
      intro h
      exact h.2.1 (by decide)⟩

/-! C5: duplication characterization. -/

theorem samePairB_refl (a : Seg) : samePairB a a = true := by
  simp [samePairB]

theorem samePairB_symm {a b : Seg} (h : samePairB a b = true) :
    samePairB b a = true := by
  simp only [samePairB, Bool.or_eq_true, Bool.and_eq_true,
    decide_eq_true_eq] at *
  rcases h with ⟨h1, h2⟩ | ⟨h1, h2⟩
  · exact Or.inl ⟨h1.symm, h2.symm⟩
  · exact Or.inr ⟨h2.symm, h1.symm⟩

/-- C5 (amended): provided geometric equality is reflexive on the collection
and implies equal length and equal unordered endpoint pair (so that the two
cheap pre-filters cannot separate a genuinely equal pair), an arc is flagged
by the duplication check iff some arc with a different identifier has an
equal geometry. Without that proviso only the left-to-right direction
holds — the pre-filters can drop true geometric duplicates whose encodings
differ. -/
theorem duplication_duplicated_amended (G : Geo) (s : VState)
    (hN : (s.segment.map Seg.sid).Nodup)
    (hrefl : ∀ a ∈ s.segment, G.equalsG a.geom a.geom = true)
    (hpres : ∀ a ∈ s.segment, ∀ b ∈ s.segment,
      G.equalsG a.geom b.geom = true →
      G.lengthOf a.geom = G.lengthOf b.geom ∧ samePairB a b = true) :
    ∀ a ∈ s.segment,
      (a.sid ∈ (duplication_duplicated G s).values ↔
        ∃ b ∈ s.segment, b.sid ≠ a.sid ∧ G.equalsG a.geom b.geom = true) := by
  intro a ha
  have sidInj : ∀ {x y : Seg}, x ∈ s.segment → y ∈ s.segment →
      x.sid = y.sid → x = y :=
    fun {x y} hx hy h => List.inj_on_of_nodup_map hN hx hy h
  have hsub1 : ∀ {t : Seg}, t ∈ dupLenFiltrate G s.segment → t ∈ s.segment :=
    fun {t} ht => List.mem_of_mem_filter ht
  have hsub2 : ∀ {t : Seg}, t ∈ dupPairFiltrate G s.segment →
      t ∈ dupLenFiltrate G s.segment :=
    fun {t} ht => List.mem_of_mem_filter ht
  have hsub2L : ∀ {t : Seg}, t ∈ dupPairFiltrate G s.segment → t ∈ s.segment :=
    fun {t} ht => hsub1 (hsub2 ht)
  have hN2 : ((dupPairFiltrate G s.segment).map Seg.sid).Nodup := by
    apply hN.sublist
    apply List.Sublist.map
    exact (List.filter_sublist _).trans (List.filter_sublist _)
  have hN2rec : (dupPairFiltrate G s.segment).Nodup := List.Nodup.of_map _ hN2
  unfold duplication_duplicated
  rw [mem_mkResult_values, mem_uniqueFirst]
  constructor
  · intro h
    rcases List.mem_map.mp h with ⟨t, ht3, hsid⟩
    rcases List.mem_filter.mp ht3 with ⟨ht2, hcnt⟩
    have htL : t ∈ s.segment := hsub2L ht2
    have hta : t = a := sidInj htL ha hsid
    subst hta
    have hcnt' : 2 ≤ (dupPairFiltrate G s.segment).countP
        (fun b => G.equalsG t.geom b.geom) := by
      simpa using hcnt
    rcases exists_ne_of_two_le_countP hN2rec t hcnt' with ⟨b, hbF2, hbt, hpb⟩
    have hbL : b ∈ s.segment := hsub2L hbF2
    refine ⟨b, hbL, ?_, hpb⟩
    intro hsid'
    exact hbt (sidInj hbL htL hsid')
  · rintro ⟨b, hb, hbsid, heq⟩
    have hab : a ≠ b := by
      intro h
      exact hbsid (by rw [h])
    have hba : b ≠ a := fun h => hab h.symm
    obtain ⟨hlen, hpair⟩ := hpres a ha b hb heq
    have haF1 : a ∈ dupLenFiltrate G s.segment := by
      apply List.mem_filter.mpr
      refine ⟨ha, ?_⟩
      simp only [decide_eq_true_eq]
      exact two_le_countP_of_mem ha hb hab (by simp) (by simp [hlen.symm])
    have hbF1 : b ∈ dupLenFiltrate G s.segment := by
      apply List.mem_filter.mpr
      refine ⟨hb, ?_⟩
      simp only [decide_eq_true_eq]
      exact two_le_countP_of_mem ha hb hab (by simp [hlen]) (by simp)
    have haF2 : a ∈ dupPairFiltrate G s.segment := by
      apply List.mem_filter.mpr
      refine ⟨haF1, ?_⟩
      simp only [decide_eq_true_eq]
      exact two_le_countP_of_mem haF1 hbF1 hab (samePairB_refl a)
        (samePairB_symm hpair)
    have hbF2 : b ∈ dupPairFiltrate G s.segment := by
      apply List.mem_filter.mpr
      refine ⟨hbF1, ?_⟩
      simp only [decide_eq_true_eq]
      exact two_le_countP_of_mem haF1 hbF1 hab hpair (samePairB_refl b)
    apply List.mem_map.mpr
    refine ⟨a, ?_, rfl⟩
    apply List.mem_filter.mpr
    refine ⟨haF2, ?_⟩
    simp only [decide_eq_true_eq]
    exact two_le_countP_of_mem haF2 hbF2 hab (hrefl a ha) heq

/-- C5 counterexample: the straight arc and its backtracking double cover
are geometrically equal (same point set), but their curve lengths differ, so
the length pre-filter removes both and the check flags nothing. -/
theorem duplication_duplicated_cex :
    (duplication_duplicated exG5 exS5).values = [] ∧
    exG5.equalsG gA5 gB5 = true ∧
    (⟨"A", "None", gA5⟩ : Seg).sid ≠ (⟨"B", "None", gB5⟩ : Seg).sid := by
  decide

/-- C5 witness: two vertex-identical arcs under the encoding-equality
oracle satisfy the provisos, and the first is flagged. -/
theorem duplication_duplicated_amended_witness :
    (⟨"A", "None", gW5⟩ : Seg).sid ∈
      (duplication_duplicated exGW5 exSW5).values :=
  (duplication_duplicated_amended exGW5 exSW5 (by decide)
      (by decide)
      (by
        intro a ha b hb hab
        have : a.geom = b.geom := by simpa [exGW5] using hab
        constructor
        · rw [this]
        · simp [samePairB, ptStart, ptEnd, this])
      ⟨"A", "None", gW5⟩ (by decide)).mpr
    ⟨⟨"B", "None", gW5⟩, by decide, by decide, by decide⟩

/-! C2: min-distance characterization. -/

theorem bnot_isEmpty_iff (l : List String) : (!l.isEmpty) = true ↔ l ≠ [] := by
  cases l <;> simp

/-- C2 (amended): the min-distance check buffers *every* node (shared or
not); an identifier appears in the check's selection query iff there is a
node whose buffer intersects more than one arc and at least one
buffer-intersecting arc does not contain the node as a vertex, and the
identifier belongs either to an arc containing the node (the node's own
arcs) or to such a disconnected buffer-intersecting arc. -/
theorem connectivity_min_distance_amended (G : Geo) (s : VState)
    (hpts : s.ptsIdLookup = buildPtsIdLookup s.segment)
    (hidx : s.idxIdLookup = buildIdxIdLookup s.segment)
    (hN : (s.segment.map Seg.sid).Nodup) :
    ∀ id : String,
      ((∃ ids, (connectivity_min_distance G s).queryIds = some ids ∧
          id ∈ ids) ↔
        ∃ pt ∈ nodesOf s.segment,
          1 < s.segment.countP (fun sg => G.bufferIntersects pt sg.geom) ∧
          (∃ d ∈ s.segment, G.bufferIntersects pt d.geom = true ∧
            pt ∉ d.geom) ∧
          ((∃ sg ∈ s.segment, pt ∈ sg.geom ∧ sg.sid = id) ∨
           (∃ sg ∈ s.segment, G.bufferIntersects pt sg.geom = true ∧
             pt ∉ sg.geom ∧ sg.sid = id))) := by
  have sidInj : ∀ {x y : Seg}, x ∈ s.segment → y ∈ s.segment →
      x.sid = y.sid → x = y :=
    fun {x y} hx hy h => List.inj_on_of_nodup_map hN hx hy h
  have hnode : ∀ (pt : Pt) (i : String),
      i ∈ s.ptsIdLookup pt ↔
        ∃ sg ∈ s.segment, pt ∈ sg.geom ∧ sg.sid = i := by
    intro pt i
    rw [hpts]
    unfold buildPtsIdLookup
    rw [List.mem_map]
    constructor
    · rintro ⟨sg, hsg, rfl⟩
      rcases List.mem_filter.mp hsg with ⟨h1, h2⟩
      exact ⟨sg, h1, by simpa using h2, rfl⟩
    · rintro ⟨sg, h1, h2, rfl⟩
      exact ⟨sg, List.mem_filter.mpr ⟨h1, by simpa using h2⟩, rfl⟩
  have hdiscmem : ∀ (pt : Pt) (i : String),
      (i ∈ (uniqueFirst ((sindexQueryP (fun h => G.bufferIntersects pt h)
          s.segment 0).map s.idxIdLookup)).filter
          (fun j => !(s.ptsIdLookup pt).contains j) ↔
        ∃ sg ∈ s.segment, G.bufferIntersects pt sg.geom = true ∧
          pt ∉ sg.geom ∧ sg.sid = i) := by
    intro pt i
    simp only [List.mem_filter, mem_uniqueFirst, hidx,
      mem_map_buildIdx_sindexQueryP]
    constructor
    · rintro ⟨⟨sg, hsg, hbuf, rfl⟩, hnotc⟩
      refine ⟨sg, hsg, hbuf, ?_, rfl⟩
      intro hptg
      have hmem : sg.sid ∈ s.ptsIdLookup pt :=
        (hnode pt sg.sid).mpr ⟨sg, hsg, hptg, rfl⟩
      have hc : (s.ptsIdLookup pt).contains sg.sid = true :=
        List.elem_iff.mpr hmem
      rw [hc] at hnotc
      cases hnotc
    · rintro ⟨sg, hsg, hbuf, hnotg, rfl⟩
      refine ⟨⟨sg, hsg, hbuf, rfl⟩, ?_⟩
      have hnm : sg.sid ∉ s.ptsIdLookup pt := by
        intro hmem
        rcases (hnode pt sg.sid).mp hmem with ⟨sg', hsg', hptg', hsid'⟩
        have heq : sg' = sg := sidInj hsg' hsg hsid'
        rw [heq] at hptg'
        exact hnotg hptg'
      have hc : (s.ptsIdLookup pt).contains sg.sid = false :=
        Bool.eq_false_iff.mpr (fun h => hnm (List.elem_iff.mp h))
      rw [hc]
      rfl
  have hrow : ∀ r : MDRow, r ∈ minDistRows G s ↔
      ∃ pt ∈ nodesOf s.segment,
        1 < s.segment.countP (fun sg => G.bufferIntersects pt sg.geom) ∧
        r = ⟨pt, s.ptsIdLookup pt,
          (uniqueFirst ((sindexQueryP (fun h => G.bufferIntersects pt h)
            s.segment 0).map s.idxIdLookup)).filter
            (fun j => !(s.ptsIdLookup pt).contains j)⟩ ∧
        r.disconnectedIds ≠ [] := by
    intro r
    simp only [minDistRows, List.mem_filter, List.mem_map]
    constructor
    · rintro ⟨⟨p2, ⟨⟨pt, hptm, rfl⟩, hlen⟩, rfl⟩, hdne⟩
      refine ⟨pt, mem_uniqueFirst.mp hptm, ?_, rfl, ?_⟩
      · rw [← sindexQueryP_length]
        simpa using hlen
      · exact (bnot_isEmpty_iff _).mp hdne
    · rintro ⟨pt, hptm, hcnt, rfl, hdne⟩
      refine ⟨⟨(pt, sindexQueryP (fun h => G.bufferIntersects pt h)
          s.segment 0), ⟨⟨pt, mem_uniqueFirst.mpr hptm, rfl⟩, ?_⟩, rfl⟩, ?_⟩
      · simp only [decide_eq_true_eq]
        rw [sindexQueryP_length]
        exact hcnt
      · exact (bnot_isEmpty_iff _).mpr hdne
  intro id
  constructor
  · rintro ⟨ids, hq, hmem⟩
    simp only [connectivity_min_distance] at hq
    by_cases hempty : (minDistRows G s).isEmpty
    · rw [if_pos hempty] at hq
      simp at hq
    · rw [if_neg hempty] at hq
      have hids : ids = uniqueFirst
          ((minDistRows G s).flatMap (·.nodeIds) ++
           (minDistRows G s).flatMap (·.disconnectedIds)) :=
        (Option.some.inj hq).symm
      subst hids
      rw [mem_uniqueFirst, List.mem_append] at hmem
      rcases hmem with hmem | hmem
      · rcases List.mem_flatMap.mp hmem with ⟨r, hr, hid⟩
        rcases (hrow r).mp hr with ⟨pt, hptm, hcnt, hreq, hdne⟩
        subst hreq
        refine ⟨pt, hptm, hcnt, ?_, Or.inl ((hnode pt id).mp hid)⟩
        rcases List.exists_mem_of_ne_nil _ hdne with ⟨j, hj⟩
        rcases (hdiscmem pt j).mp hj with ⟨d, hd, hdbuf, hdnot, _⟩
        exact ⟨d, hd, hdbuf, hdnot⟩
      · rcases List.mem_flatMap.mp hmem with ⟨r, hr, hid⟩
        rcases (hrow r).mp hr with ⟨pt, hptm, hcnt, hreq, hdne⟩
        subst hreq
        refine ⟨pt, hptm, hcnt, ?_, Or.inr ((hdiscmem pt id).mp hid)⟩
        rcases List.exists_mem_of_ne_nil _ hdne with ⟨j, hj⟩
        rcases (hdiscmem pt j).mp hj with ⟨d, hd, hdbuf, hdnot, _⟩
        exact ⟨d, hd, hdbuf, hdnot⟩
  · rintro ⟨pt, hptm, hcnt, ⟨d, hd, hdbuf, hdnot⟩, hcase⟩
    have hdisc : d.sid ∈ (uniqueFirst ((sindexQueryP
        (fun h => G.bufferIntersects pt h) s.segment 0).map
        s.idxIdLookup)).filter (fun j => !(s.ptsIdLookup pt).contains j) :=
      (hdiscmem pt d.sid).mpr ⟨d, hd, hdbuf, hdnot, rfl⟩
    have hdne : ((uniqueFirst ((sindexQueryP
        (fun h => G.bufferIntersects pt h) s.segment 0).map
        s.idxIdLookup)).filter
        (fun j => !(s.ptsIdLookup pt).contains j)) ≠ [] :=
      List.ne_nil_of_mem hdisc
    have hrmem : (⟨pt, s.ptsIdLookup pt,
        (uniqueFirst ((sindexQueryP (fun h => G.bufferIntersects pt h)
          s.segment 0).map s.idxIdLookup)).filter
          (fun j => !(s.ptsIdLookup pt).contains j)⟩ : MDRow) ∈
        minDistRows G s :=
      (hrow _).mpr ⟨pt, hptm, hcnt, rfl, hdne⟩
    have hempty : ¬ (minDistRows G s).isEmpty = true := by
      rw [List.isEmpty_iff]
      intro hnil
      rw [hnil] at hrmem
      exact absurd hrmem (List.not_mem_nil _)
    refine ⟨uniqueFirst ((minDistRows G s).flatMap (·.nodeIds) ++
      (minDistRows G s).flatMap (·.disconnectedIds)), ?_, ?_⟩
    · simp only [connectivity_min_distance]
      rw [if_neg hempty]
    · rw [mem_uniqueFirst, List.mem_append]
      rcases hcase with hcase | hcase
      · left
        apply List.mem_flatMap.mpr
        exact ⟨_, hrmem, (hnode pt id).mpr hcase⟩
      · right
        apply List.mem_flatMap.mpr
        exact ⟨_, hrmem, (hdiscmem pt id).mpr hcase⟩

/-- C2 counterexample: a violating node row of the min-distance check
originates at the endpoint (10,0) even though that endpoint is shared by two
arcs — the check buffers every node, not only dead ends. -/
theorem connectivity_min_distance_cex :
    ((minDistRows exG2 exS2).filter
      (fun r => decide (r.pt = ((10 : ℚ), (0 : ℚ))))).length = 1 ∧
    2 ≤ segs2.countP (fun sg =>
      decide (ptStart sg = ((10 : ℚ), (0 : ℚ))) ||
      decide (ptEnd sg = ((10 : ℚ), (0 : ℚ)))) := by
  decide

/-- C2 witness: the amended characterization applied at the fixture — the
disconnected arc `C` appears in the selection query via the shared node
(10,0). -/
theorem connectivity_min_distance_amended_witness :
    ∃ ids, (connectivity_min_distance exG2 exS2).queryIds = some ids ∧
      ("C" : String) ∈ ids :=
  (connectivity_min_distance_amended exG2 exS2 rfl rfl (by decide) "C").mpr
    ⟨((10 : ℚ), (0 : ℚ)), by decide, by decide,
     ⟨⟨"C", "None", gC2⟩, by decide, by decide, by decide⟩,
     Or.inr ⟨⟨"C", "None", gC2⟩, by decide, by decide, by decide, by decide⟩⟩
